import Mathlib

/-!
Shallow embedding of the tensor-algebra module (generalrelativity.py):
multi-index generation and validation, the sparse Tensor class with its
constructor, item access, equality, addition and densification, the
matrix adapter, and the index-contraction algorithm.

Conventions of the embedding:
* scalar values (symbolic expressions used only through ring addition and
  a zero) are modelled as integers;
* a Python multi-index is either the marker None or a tuple of ints,
  modelled as an optional list of integers;
* a Python dict is modelled as an insertion-ordered association list;
  two dicts are equal as Python values when they agree as key-value maps,
  and assignment d[k] = v updates the entry in place when the key is
  present and appends it otherwise;
* Python exceptions are modelled by an Except monad with one structured
  error constructor per distinct raise site (each carrying the data the
  corresponding message interpolates), including the implicit type errors
  raised by len of an int and by slicing None.
-/

deriving instance DecidableEq for Except

/-- Scalar values: the code only needs ring addition, equality and zero. -/
abbrev Scalar := Int

/-- A multi-index: the marker None (rank 0) or a tuple of integers. -/
abbrev MIdx := Option (List Int)

/-- A key of the component dictionary: a pair of multi-indices. -/
abbrev TKey := MIdx × MIdx

/-- The component dictionary, as an insertion-ordered association list. -/
abbrev TDict := List (TKey × Scalar)

/-- Python dict lookup: value of the first (and in a real dict, only)
entry with the given key, if any. -/
def dict_find (d : TDict) (k : TKey) : Option Scalar :=
  (d.find? (fun e => decide (e.1 = k))).map (fun e => e.2)

/-- Python dict assignment d[k] = v: replace the entry in place when the
key is present, append it otherwise. -/
def dict_set (d : TDict) (k : TKey) (v : Scalar) : TDict :=
  if (d.find? (fun e => decide (e.1 = k))).isSome then
    d.map (fun e => if e.1 = k then (k, v) else e)
  else
    d ++ [(k, v)]

/-- itertools.product(range(n), repeat=p): every length-p tuple with
entries drawn from range(n), in lexicographic order, the last coordinate
iterating fastest. -/
def cartesianPower (n : ℕ) : ℕ → List (List Int)
  | 0 => [[]]
  | p + 1 =>
    (List.range n).flatMap (fun x => (cartesianPower n p).map (fun xs => (x : Int) :: xs))

/-- get_all_multiindices(p, n): returns [None] when p == 0, the singleton
tuples when p == 1, the full Cartesian power when p > 1, and falls through
all branches (Python implicitly returns None) when p is negative. -/
def get_all_multiindices (p : Int) (n : ℕ) : Option (List MIdx) :=
  if p = 0 then some [Option.none]
  else if p = 1 then some ((List.range n).map (fun k : ℕ => some [(k : Int)]))
  else if 1 < p then some ((cartesianPower n p.toNat).map (fun t => some t))
  else none

/-- The value of get_all_multiindices at a natural rank, where the Python
function always returns a list. -/
def genMI (p n : ℕ) : List MIdx :=
  (get_all_multiindices (p : Int) n).getD []

/-- is_multiindex(multiindex, n, c_dimension): None is a multi-index
exactly of length 0; a tuple must have length c_dimension and every entry
in the interval from 0 to n-1. -/
def is_multiindex (multiindex : MIdx) (n : ℕ) (c_dimension : ℕ) : Bool :=
  match multiindex with
  | Option.none => decide (c_dimension = 0)
  | some t =>
    if t.length ≠ c_dimension then false
    else t.all (fun value => decide (0 ≤ value) && decide (value < (n : Int)))

/-- The argument passed to __getitem__ on either side: a raw integer or a
multi-index (a tuple or the marker None). -/
inductive PyIdx where
  | int (k : Int)
  | mi (m : MIdx)
deriving DecidableEq

/-- One constructor per distinct raise site of the module, carrying the
data the corresponding message interpolates. -/
inductive PyErr where
  /-- __init__: ValueError naming the offending multi-index and the
  expected dimension. -/
  | valueErrorMI (m : MIdx) (expected : ℕ)
  /-- __getitem__: KeyError naming both supplied indices. -/
  | keyErrorPair (a b : PyIdx)
  /-- __getitem__: TypeError from calling len on an int inside
  is_multiindex (the fall-through when the first index is an int and the
  second is an invalid non-int). -/
  | typeErrorLenOfInt
  /-- contract_indices: TypeError from slicing the marker None. -/
  | typeErrorNoneSlice
  /-- __add__: ValueError when the other operand is not a Tensor. -/
  | valueErrorAddNonTensor
  /-- __add__: ValueError when bases or types differ. -/
  | valueErrorAddMismatch
  /-- contract_indices: ValueError when a rank in the type is below one. -/
  | valueErrorRankTooLow (t : ℕ × ℕ)
  /-- contract_indices: ValueError for the contravariant slot check,
  naming the slot and the stored contravariant dimension minus one. -/
  | valueErrorContravariantSlot (i bound : Int)
  /-- contract_indices: ValueError for the covariant slot check, naming
  the slot and the stored covariant dimension minus one. -/
  | valueErrorCovariantSlot (j bound : Int)
  /-- __eq__: AttributeError when the other operand lacks the accessed
  attribute (a plain number or string has no basis). -/
  | attributeError
deriving DecidableEq

/-- The Tensor object: a basis, the two stored rank attributes, and the
sparse component dictionary. __init__ stores covariant_dim = _type[0] and
contravariant_dim = _type[1]. -/
structure Tensor where
  basis : List ℕ
  covariant_dim : ℕ
  contravariant_dim : ℕ
  dict_of_values : TDict
deriving DecidableEq

/-- self.type, which __init__ stores verbatim: the pair whose first
component became covariant_dim and whose second became contravariant_dim. -/
def Tensor.type (t : Tensor) : ℕ × ℕ :=
  (t.covariant_dim, t.contravariant_dim)

/-- The validation loop of __init__: iterate the keys in insertion order;
for each key check the first half against contravariant_dim and then the
second half against covariant_dim, raising at the first failure. -/
def checkKeys (n contravariant_dim covariant_dim : ℕ) : TDict → Except PyErr Unit
  | [] => Except.ok ()
  | (k, _) :: rest =>
    if ¬ is_multiindex k.1 n contravariant_dim then
      Except.error (PyErr.valueErrorMI k.1 contravariant_dim)
    else if ¬ is_multiindex k.2 n covariant_dim then
      Except.error (PyErr.valueErrorMI k.2 covariant_dim)
    else checkKeys n contravariant_dim covariant_dim rest

/-- Tensor.__init__(basis, _type, dict_of_values): stores
covariant_dim = _type[0] and contravariant_dim = _type[1], validates every
key of the dictionary, and on success stores the dictionary verbatim. -/
def Tensor.make (basis : List ℕ) (_type : ℕ × ℕ) (dict_of_values : TDict) :
    Except PyErr Tensor :=
  let covariant_dim := _type.1
  let contravariant_dim := _type.2
  match checkKeys basis.length contravariant_dim covariant_dim dict_of_values with
  | Except.error e => Except.error e
  | Except.ok _ =>
    Except.ok ⟨basis, covariant_dim, contravariant_dim, dict_of_values⟩

/-- Tensor.__getitem__(pair): branch on whether each side is an int,
following the source control flow, including the fall-through paths. -/
def Tensor.getitem (t : Tensor) (a b : PyIdx) : Except PyErr Scalar :=
  let n := t.basis.length
  match a with
  | PyIdx.int ia =>
    match b with
    | PyIdx.int ib =>
      if is_multiindex (some [ia]) n t.contravariant_dim &&
         is_multiindex (some [ib]) n t.covariant_dim then
        Except.ok ((dict_find t.dict_of_values (some [ia], some [ib])).getD 0)
      else
        Except.error (PyErr.keyErrorPair a b)
    | PyIdx.mi mb =>
      if is_multiindex mb n t.covariant_dim then
        Except.ok ((dict_find t.dict_of_values (some [ia], mb)).getD 0)
      else
        -- falls through to is_multiindex(a, ...) with a still an int:
        -- len(a) raises TypeError
        Except.error PyErr.typeErrorLenOfInt
  | PyIdx.mi ma =>
    if is_multiindex ma n t.contravariant_dim then
      match b with
      | PyIdx.int ib =>
        Except.ok ((dict_find t.dict_of_values (ma, some [ib])).getD 0)
      | PyIdx.mi mb =>
        if is_multiindex mb n t.covariant_dim then
          Except.ok ((dict_find t.dict_of_values (ma, mb)).getD 0)
        else
          Except.error (PyErr.keyErrorPair a b)
    else
      Except.error (PyErr.keyErrorPair a b)

/-- Tensor.get_all_values(): the densified dictionary, iterating the
contravariant multi-indices in the outer loop and the covariant ones in
the inner loop, filling zero for absent keys. -/
def Tensor.get_all_values (t : Tensor) : TDict :=
  let dim := t.basis.length
  let covariant_multiindices := genMI t.covariant_dim dim
  let contravariant_multiindices := genMI t.contravariant_dim dim
  contravariant_multiindices.flatMap (fun a =>
    covariant_multiindices.map (fun b =>
      ((a, b), (dict_find t.dict_of_values (a, b)).getD 0)))

/-- A Python value that may appear as the right operand of == or +:
a Tensor, or a value with no basis attribute such as a number or string. -/
inductive PyVal where
  | tensor (t : Tensor)
  | int (k : Int)
  | str (s : String)

/-- Tensor.__eq__(other): accessing other.basis raises AttributeError on
a non-Tensor; on a Tensor, equal basis, then equal type, then equal
densified values yield True, anything else False. -/
def Tensor.eq (t : Tensor) (other : PyVal) : Except PyErr Bool :=
  match other with
  | PyVal.tensor u =>
    Except.ok (decide (t.basis = u.basis) && decide (t.type = u.type) &&
      decide (t.get_all_values = u.get_all_values))
  | PyVal.int _ => Except.error PyErr.attributeError
  | PyVal.str _ => Except.error PyErr.attributeError

/-- The result_dict loop of __add__: start from a copy of the dictionary
of self and fold the entries of other into it. -/
def addDicts (d1 d2 : TDict) : TDict :=
  d2.foldl (fun res kv =>
    match dict_find res kv.1 with
    | some v => dict_set res kv.1 (v + kv.2)
    | Option.none => dict_set res kv.1 kv.2) d1

/-- Tensor.__add__(other): raises on a non-Tensor operand, raises when
basis or type differ, and otherwise builds the summed dictionary and
passes it through the Tensor constructor. -/
def Tensor.add (t : Tensor) (other : PyVal) : Except PyErr Tensor :=
  match other with
  | PyVal.tensor u =>
    if u.basis ≠ t.basis ∨ u.type ≠ t.type then
      Except.error PyErr.valueErrorAddMismatch
    else
      Tensor.make t.basis t.type (addDicts t.dict_of_values u.dict_of_values)
  | PyVal.int _ => Except.error PyErr.valueErrorAddNonTensor
  | PyVal.str _ => Except.error PyErr.valueErrorAddNonTensor

/-- tensor_from_matrix(matrix, basis): keys ((i, j), None) mapped to the
matrix entries, passed to the constructor with _type = (0, 2). -/
def tensor_from_matrix (matrix : List (List Scalar)) (basis : List ℕ) :
    Except PyErr Tensor :=
  let m := matrix.length
  let dict_of_values : TDict :=
    (List.range m).flatMap (fun i : ℕ =>
      (List.range m).map (fun j : ℕ =>
        (((some [(i : Int), (j : Int)] : MIdx), (Option.none : MIdx)),
          ((matrix.getD i []).getD j 0))))
  Tensor.make basis (0, 2) dict_of_values

/-- Python tuple surgery a[:k] + (r,) + a[k:] on a tuple. -/
def insertAt (l : List Int) (k : ℕ) (r : Int) : List Int :=
  l.take k ++ r :: l.drop k

/-- Python tuple surgery a[:k] + (r,) + a[k:] on a multi-index: slicing
the marker None raises TypeError. -/
def sliceInsert (m : MIdx) (k : ℕ) (r : Int) : Except PyErr (List Int) :=
  match m with
  | Option.none => Except.error PyErr.typeErrorNoneSlice
  | some l => Except.ok (insertAt l k r)

/-- contract_indices(tensor, i, j): the three precondition checks, then
the dense double loop building the sum over the basis range for every
pair of reduced multi-indices, then the constructor call. -/
def contract_indices (tensor : Tensor) (i j : Int) : Except PyErr Tensor := do
  let dim := tensor.basis.length
  let covariant_dim := tensor.covariant_dim
  let contravariant_dim := tensor.contravariant_dim
  if covariant_dim < 1 ∨ contravariant_dim < 1 then
    throw (PyErr.valueErrorRankTooLow tensor.type)
  if i < 0 ∨ (contravariant_dim : Int) ≤ i then
    throw (PyErr.valueErrorContravariantSlot i ((contravariant_dim : Int) - 1))
  if j < 0 ∨ (covariant_dim : Int) ≤ j then
    throw (PyErr.valueErrorCovariantSlot j ((covariant_dim : Int) - 1))
  let covariant_indices := genMI (covariant_dim - 1) dim
  let contravariant_indices := genMI (contravariant_dim - 1) dim
  let new_tensor_dict ← contravariant_indices.foldlM (fun d a =>
    covariant_indices.foldlM (fun d b => do
      let sumand ← (List.range dim).foldlM (fun sumand r => do
        let a_extended ← sliceInsert a i.toNat (r : Int)
        let b_extended ← sliceInsert b j.toNat (r : Int)
        let v ← tensor.getitem (PyIdx.mi (some a_extended)) (PyIdx.mi (some b_extended))
        pure (sumand + v)) (0 : Scalar)
      pure (dict_set d (a, b) sumand)) d) ([] : TDict)
  Tensor.make tensor.basis (contravariant_dim - 1, covariant_dim - 1) new_tensor_dict

/-- Lookup with the implicit zero default. -/
def lookup0 (t : Tensor) (k : TKey) : Scalar :=
  (dict_find t.dict_of_values k).getD 0

/-- All keys of the component dictionary are valid for the stored ranks
(the invariant the constructor establishes). -/
def validKeys (t : Tensor) : Bool :=
  t.dict_of_values.all (fun e =>
    is_multiindex e.1.1 t.basis.length t.contravariant_dim &&
    is_multiindex e.1.2 t.basis.length t.covariant_dim)

/-- Lexicographic order on multi-indices of equal positive rank: the
order in which get_all_multiindices lists tuples, the last coordinate
iterating fastest. -/
def midxLex : MIdx → MIdx → Prop
  | some s, some t => List.Lex (· < ·) s t
  | _, _ => False

/-- Pointwise combination of two optional stored values, as the sum
dictionary of __add__ realizes it: both present gives the ring sum, one
present gives that value, neither present stays absent. -/
def combineOpt : Option Scalar → Option Scalar → Option Scalar
  | some x, some y => some (x + y)
  | some x, Option.none => some x
  | Option.none, some y => some y
  | Option.none, Option.none => Option.none

/-- The identity-like (1,1) tensor of the contraction scenario: basis of
dimension 2, components ((0,),(0,)) = 3 and ((1,),(1,)) = 5. -/
def T1 : Tensor :=
  ⟨[0, 1], 1, 1, [((some [0], some [0]), 3), ((some [1], some [1]), 5)]⟩

/-- A (1,1) tensor over a dimension-4 basis with an empty component map. -/
def T4 : Tensor := ⟨[0, 1, 2, 3], 1, 1, []⟩

/-- The tensor Tensor(basis, (2, 1), {}) over a dimension-2 basis:
__init__ stores covariant_dim = 2 and contravariant_dim = 1. -/
def T5 : Tensor := ⟨[0, 1], 2, 1, []⟩

/-- A sparse (1,1) tensor used in the equality and addition scenarios. -/
def T6a : Tensor :=
  ⟨[0, 1], 1, 1, [((some [0], some [0]), 3), ((some [1], some [1]), 5)]⟩

/-- The same components as T6a listed in the opposite insertion order. -/
def T6b : Tensor :=
  ⟨[0, 1], 1, 1, [((some [1], some [1]), 5), ((some [0], some [0]), 3)]⟩

/-- The same components as T6a with one explicit zero entry added. -/
def T6c : Tensor :=
  ⟨[0, 1], 1, 1,
    [((some [0], some [0]), 3), ((some [1], some [1]), 5), ((some [0], some [1]), 0)]⟩

/-! ### Properties of the multi-index generator -/

lemma sum_map_fixed (l : List ℕ) (c : ℕ) : (l.map (fun _ => c)).sum = l.length * c := by
  induction l with
  | nil => simp
  | cons x xs ih => simp [ih, Nat.succ_mul, Nat.add_comm]

lemma cartesianPower_length (n p : ℕ) : (cartesianPower n p).length = n ^ p := by
  induction p with
  | zero => rfl
  | succ p ih =>
    rw [cartesianPower, List.length_flatMap]
    have h : (List.map (List.length ∘ fun x : ℕ =>
        (cartesianPower n p).map (fun xs => (x : Int) :: xs)) (List.range n)) =
        (List.range n).map (fun _ => n ^ p) := by
      apply List.map_congr_left
      intro a _
      simp [ih]
    rw [h, sum_map_fixed, List.length_range, pow_succ, Nat.mul_comm]

lemma mem_cartesianPower {n p : ℕ} {t : List Int} :
    t ∈ cartesianPower n p ↔ t.length = p ∧ ∀ x ∈ t, 0 ≤ x ∧ x < (n : Int) := by
  induction p generalizing t with
  | zero =>
    constructor
    · intro h
      have : t = [] := by simpa [cartesianPower] using h
      subst this
      simp
    · rintro ⟨h, _⟩
      have : t = [] := List.length_eq_zero.mp h
      subst this
      simp [cartesianPower]
  | succ p ih =>
    constructor
    · intro h
      rw [cartesianPower] at h
      rcases List.mem_flatMap.mp h with ⟨x, hx, hmem⟩
      rcases List.mem_map.mp hmem with ⟨xs, hxs, rfl⟩
      obtain ⟨hlen, hall⟩ := ih.mp hxs
      refine ⟨by simp [hlen], ?_⟩
      intro y hy
      rcases List.mem_cons.mp hy with rfl | hy'
      · have : x < n := List.mem_range.mp hx
        constructor
        · exact Int.natCast_nonneg x
        · exact_mod_cast this
      · exact hall y hy'
    · rintro ⟨hlen, hall⟩
      rcases t with _ | ⟨y, ys⟩
      · simp at hlen
      · have hy := hall y (List.mem_cons_self y ys)
        rw [cartesianPower]
        refine List.mem_flatMap.mpr ⟨y.toNat, ?_, ?_⟩
        · refine List.mem_range.mpr ?_
          omega
        · refine List.mem_map.mpr ⟨ys, ?_, ?_⟩
          · refine ih.mpr ⟨by simpa using hlen, ?_⟩
            intro x hx
            exact hall x (List.mem_cons_of_mem y hx)
          · rw [Int.toNat_of_nonneg hy.1]

lemma lex_irrefl (t : List Int) : ¬ List.Lex (· < ·) t t := by
  induction t with
  | nil => intro h; cases h
  | cons x xs ih =>
    intro h
    cases h with
    | cons h => exact ih h
    | rel h => exact lt_irrefl _ h

lemma pairwise_flatMap_cons (cp : List (List Int))
    (hcp : cp.Pairwise (List.Lex (· < ·))) :
    ∀ l : List ℕ, l.Pairwise (· < ·) →
      (l.flatMap (fun x => cp.map (fun xs => (x : Int) :: xs))).Pairwise
        (List.Lex (· < ·)) := by
  intro l hl
  induction l with
  | nil => simp
  | cons x rest ih =>
    rw [List.flatMap_cons, List.pairwise_append]
    rw [List.pairwise_cons] at hl
    refine ⟨?_, ih hl.2, ?_⟩
    · exact List.pairwise_map.mpr (hcp.imp (fun h => List.Lex.cons h))
    · intro u hu v hv
      rcases List.mem_map.mp hu with ⟨xs, _, rfl⟩
      rcases List.mem_flatMap.mp hv with ⟨y, hy, hv2⟩
      rcases List.mem_map.mp hv2 with ⟨ys, _, rfl⟩
      have hxy : x < y := hl.1 y hy
      exact List.Lex.rel (by exact_mod_cast hxy)

lemma cartesianPower_pairwise (n p : ℕ) :
    (cartesianPower n p).Pairwise (List.Lex (· < ·)) := by
  induction p with
  | zero => simp [cartesianPower]
  | succ p ih =>
    rw [cartesianPower]
    exact pairwise_flatMap_cons _ ih _ (List.pairwise_lt_range n)

lemma cartesianPower_nodup (n p : ℕ) : (cartesianPower n p).Nodup := by
  refine (cartesianPower_pairwise n p).imp ?_
  intro a b h
  intro hab
  subst hab
  exact lex_irrefl a h

lemma flatMap_single {α β : Type} (l : List α) (f : α → β) :
    l.flatMap (fun x => [f x]) = l.map f := by
  induction l with
  | nil => rfl
  | cons x xs ih => simp [List.flatMap_cons, ih]

lemma cartesianPower_one (n : ℕ) :
    cartesianPower n 1 = (List.range n).map (fun x : ℕ => [(x : Int)]) := by
  rw [cartesianPower]
  calc (List.range n).flatMap (fun x : ℕ => (cartesianPower n 0).map (fun xs => (x : Int) :: xs))
      = (List.range n).flatMap (fun x : ℕ => [[(x : Int)]]) :=
        List.flatMap_congr (fun x _ => rfl)
    _ = (List.range n).map (fun x : ℕ => [(x : Int)]) := flatMap_single _ _

lemma genMI_eq (p n : ℕ) :
    genMI p n = if p = 0 then [(Option.none : MIdx)]
                else (cartesianPower n p).map (fun t => some t) := by
  unfold genMI get_all_multiindices
  rcases p with _ | _ | p
  · simp
  · rw [if_neg (by omega), if_pos (by omega), if_neg (by norm_num)]
    rw [cartesianPower_one, List.map_map]
    rfl
  · rw [if_neg (by omega), if_neg (by omega), if_pos (by omega)]
    have ht : ((p + 1 + 1 : ℕ) : Int).toNat = p + 1 + 1 := Int.toNat_natCast _
    rw [ht]
    rfl

lemma get_all_multiindices_natCast (p n : ℕ) :
    get_all_multiindices (p : Int) n = some (genMI p n) := by
  unfold genMI
  rcases h : get_all_multiindices (p : Int) n with _ | l
  · exfalso
    unfold get_all_multiindices at h
    rcases p with _ | _ | p
    · simp at h
    · simp at h
    · rw [if_neg (by omega), if_neg (by omega), if_pos (by omega)] at h
      exact Option.noConfusion h
  · rfl

/-- Claim C8: for every rank p with 0 ≤ p and basis size n with 1 ≤ n,
get_all_multiindices(p, n) returns a list of exactly n ^ p multi-indices,
which is exactly the one-element list holding the empty marker when p = 0;
for positive p every element is a length-p tuple with entries in the
interval from 0 to n-1, every such tuple appears exactly once, and the
list is sorted in lexicographic order with the last coordinate iterating
fastest. -/
theorem get_all_multiindices_complete (p : Int) (n : ℕ) (hp : 0 ≤ p) (hn : 1 ≤ n) :
    get_all_multiindices p n = some (genMI p.toNat n) ∧
    (genMI p.toNat n).length = n ^ p.toNat ∧
    (p = 0 → genMI p.toNat n = [(Option.none : MIdx)]) ∧
    (∀ t : List Int, 0 < p → t.length = p.toNat →
      (∀ x ∈ t, 0 ≤ x ∧ x < (n : Int)) → some t ∈ genMI p.toNat n) ∧
    (∀ m ∈ genMI p.toNat n, 0 < p →
      ∃ t : List Int, m = some t ∧ t.length = p.toNat ∧
        ∀ x ∈ t, 0 ≤ x ∧ x < (n : Int)) ∧
    (genMI p.toNat n).Nodup ∧
    (genMI p.toNat n).Pairwise midxLex := by
  obtain ⟨q, rfl⟩ : ∃ q : ℕ, p = (q : Int) := ⟨p.toNat, (Int.toNat_of_nonneg hp).symm⟩
  rw [Int.toNat_natCast]
  refine ⟨get_all_multiindices_natCast q n, ?_, ?_, ?_, ?_, ?_, ?_⟩
  · rw [genMI_eq]
    by_cases hq : q = 0
    · simp [hq]
    · rw [if_neg hq, List.length_map, cartesianPower_length]
  · intro h0
    have : q = 0 := by exact_mod_cast h0
    simp [genMI_eq, this]
  · intro t hpos hlen hall
    have hq : ¬ q = 0 := by omega
    rw [genMI_eq, if_neg hq]
    exact List.mem_map.mpr ⟨t, mem_cartesianPower.mpr ⟨hlen, hall⟩, rfl⟩
  · intro m hm hpos
    have hq : ¬ q = 0 := by omega
    rw [genMI_eq, if_neg hq] at hm
    rcases List.mem_map.mp hm with ⟨t, ht, rfl⟩
    obtain ⟨hlen, hall⟩ := mem_cartesianPower.mp ht
    exact ⟨t, rfl, hlen, hall⟩
  · rw [genMI_eq]
    by_cases hq : q = 0
    · simp [hq]
    · rw [if_neg hq]
      exact (cartesianPower_nodup n q).map (Option.some_injective _)
  · rw [genMI_eq]
    by_cases hq : q = 0
    · simp [hq]
    · rw [if_neg hq]
      refine List.pairwise_map.mpr ?_
      exact (cartesianPower_pairwise n q).imp (fun h => h)

/-- Witness for claim C8 at rank 2 over a basis of dimension 2. -/
theorem get_all_multiindices_complete_witness :
    (0 : Int) ≤ 2 ∧ (1 : ℕ) ≤ 2 ∧
      (genMI (2 : Int).toNat 2).length = 2 ^ (2 : Int).toNat :=
  ⟨by decide, by decide, (get_all_multiindices_complete 2 2 (by decide) (by decide)).2.1⟩

/-- Claim C9: for every negative rank p and every dimension n the
generator falls through all of its branches and returns the implicit
None value rather than a list of multi-indices. -/
theorem get_all_multiindices_neg (p : Int) (n : ℕ) (hp : p < 0) :
    get_all_multiindices p n = Option.none := by
  unfold get_all_multiindices
  rw [if_neg (by omega), if_neg (by omega), if_neg (by omega)]

/-- Witness for claim C9 at rank -1 and dimension 3. -/
theorem get_all_multiindices_neg_witness :
    (-1 : Int) < 0 ∧ get_all_multiindices (-1) 3 = Option.none :=
  ⟨by decide, get_all_multiindices_neg (-1) 3 (by decide)⟩

/-! ### Properties of dictionary lookup and densification -/

lemma find?_key_eq_some {d : TDict} {k : TKey} {e : TKey × Scalar}
    (h : d.find? (fun e => decide (e.1 = k)) = some e) : e ∈ d ∧ e.1 = k := by
  refine ⟨List.mem_of_find?_eq_some h, ?_⟩
  have := List.find?_some h
  exact of_decide_eq_true this

lemma entry_unique {d : TDict} (hn : (d.map Prod.fst).Nodup)
    {e f : TKey × Scalar} (he : e ∈ d) (hf : f ∈ d) (hk : e.1 = f.1) : e = f := by
  induction d with
  | nil => cases he
  | cons x rest ih =>
    rw [List.map_cons, List.nodup_cons] at hn
    rcases List.mem_cons.mp he with rfl | he'
    · rcases List.mem_cons.mp hf with rfl | hf'
      · rfl
      · exact absurd (hk ▸ List.mem_map_of_mem Prod.fst hf') hn.1
    · rcases List.mem_cons.mp hf with rfl | hf'
      · exact absurd (hk ▸ List.mem_map_of_mem Prod.fst he') hn.1
      · exact ih hn.2 he' hf'

lemma dict_find_perm {d d' : TDict} (h : d.Perm d')
    (hn : (d.map Prod.fst).Nodup) (k : TKey) :
    dict_find d k = dict_find d' k := by
  unfold dict_find
  rcases hfind : d.find? (fun e => decide (e.1 = k)) with _ | e
  · have hall := List.find?_eq_none.mp hfind
    have : d'.find? (fun e => decide (e.1 = k)) = Option.none :=
      List.find?_eq_none.mpr (fun x hx => hall x (h.symm.subset hx))
    rw [hfind, this]
  · obtain ⟨he, hek⟩ := find?_key_eq_some hfind
    have hs : (d'.find? (fun e => decide (e.1 = k))).isSome :=
      List.find?_isSome.mpr ⟨e, h.subset he, by simp [hek]⟩
    rcases Option.isSome_iff_exists.mp hs with ⟨f, hf⟩
    obtain ⟨hfm, hfk⟩ := find?_key_eq_some hf
    have : f = e := entry_unique hn (h.symm.subset hfm) he (hfk.trans hek.symm)
    rw [hfind, hf, this]

lemma dict_find_eq_none_iff {d : TDict} {k : TKey} :
    dict_find d k = Option.none ↔ ∀ e ∈ d, e.1 ≠ k := by
  unfold dict_find
  rw [Option.map_eq_none', List.find?_eq_none]
  constructor
  · intro h e he
    have := h e he
    simpa using this
  · intro h e he
    simpa using h e he

lemma type_eq_components {t u : Tensor} (h : t.type = u.type) :
    t.covariant_dim = u.covariant_dim ∧ t.contravariant_dim = u.contravariant_dim := by
  unfold Tensor.type at h
  exact ⟨congrArg Prod.fst h, congrArg Prod.snd h⟩

lemma mem_get_all_values {t : Tensor} {a b : MIdx} {v : Scalar} :
    ((a, b), v) ∈ t.get_all_values ↔
      a ∈ genMI t.contravariant_dim t.basis.length ∧
      b ∈ genMI t.covariant_dim t.basis.length ∧ v = lookup0 t (a, b) := by
  unfold Tensor.get_all_values lookup0
  constructor
  · intro h
    rcases List.mem_flatMap.mp h with ⟨a', ha', hmem⟩
    rcases List.mem_map.mp hmem with ⟨b', hb', heq⟩
    have h1 : a' = a := congrArg (fun z => z.1.1) heq
    have h2 : b' = b := congrArg (fun z => z.1.2) heq
    have h3 : (dict_find t.dict_of_values (a', b')).getD 0 = v :=
      congrArg (fun z => z.2) heq
    subst h1
    subst h2
    exact ⟨ha', hb', h3.symm⟩
  · rintro ⟨ha, hb, rfl⟩
    exact List.mem_flatMap.mpr ⟨a, ha, List.mem_map.mpr ⟨b, hb, rfl⟩⟩

lemma get_all_values_congr {t u : Tensor} (hb : t.basis = u.basis)
    (ht : t.type = u.type)
    (h : ∀ a ∈ genMI t.contravariant_dim t.basis.length,
         ∀ b ∈ genMI t.covariant_dim t.basis.length,
           lookup0 t (a, b) = lookup0 u (a, b)) :
    t.get_all_values = u.get_all_values := by
  obtain ⟨hc, hct⟩ := type_eq_components ht
  unfold Tensor.get_all_values
  rw [← hb, ← hc, ← hct]
  refine List.flatMap_congr ?_
  intro a ha
  refine List.map_congr_left ?_
  intro b hbm
  have := h a ha b hbm
  unfold lookup0 at this
  rw [this]

lemma get_all_values_eq_iff {t u : Tensor} (hb : t.basis = u.basis)
    (ht : t.type = u.type) :
    t.get_all_values = u.get_all_values ↔
      ∀ a ∈ genMI t.contravariant_dim t.basis.length,
        ∀ b ∈ genMI t.covariant_dim t.basis.length,
          lookup0 t (a, b) = lookup0 u (a, b) := by
  obtain ⟨hc, hct⟩ := type_eq_components ht
  constructor
  · intro h a ha b hbm
    have h1 : ((a, b), lookup0 t (a, b)) ∈ t.get_all_values :=
      mem_get_all_values.mpr ⟨ha, hbm, rfl⟩
    rw [h] at h1
    have h2 := mem_get_all_values.mp h1
    exact h2.2.2
  · exact get_all_values_congr hb ht

lemma eq_ok_true_iff {t u : Tensor} :
    t.eq (PyVal.tensor u) = Except.ok true ↔
      t.basis = u.basis ∧ t.type = u.type ∧
        t.get_all_values = u.get_all_values := by
  unfold Tensor.eq
  constructor
  · intro h
    have h' : (decide (t.basis = u.basis) && decide (t.type = u.type) &&
        decide (t.get_all_values = u.get_all_values)) = true := by
      exact Except.ok.inj h
    simp only [Bool.and_eq_true, decide_eq_true_eq] at h'
    exact ⟨h'.1.1, h'.1.2, h'.2⟩
  · rintro ⟨h1, h2, h3⟩
    simp [h1, h2, h3]

/-- Claim C6: Tensor equality holds iff the two tensors share the same
basis by value, the same stored type pair, and the same densified
component mapping over all multi-index pairs with absent entries treated
as zero; consequently equality is reflexive, symmetric, insensitive to
the insertion order of the sparse map, and insensitive to explicit
zero-valued entries. -/
theorem tensor_eq_characterization :
    (∀ t u : Tensor, t.eq (PyVal.tensor u) = Except.ok true ↔
        (t.basis = u.basis ∧ t.type = u.type ∧
          ∀ a ∈ genMI t.contravariant_dim t.basis.length,
            ∀ b ∈ genMI t.covariant_dim t.basis.length,
              lookup0 t (a, b) = lookup0 u (a, b))) ∧
    (∀ t : Tensor, t.eq (PyVal.tensor t) = Except.ok true) ∧
    (∀ t u : Tensor, t.eq (PyVal.tensor u) = Except.ok true →
        u.eq (PyVal.tensor t) = Except.ok true) ∧
    (∀ t u : Tensor, t.basis = u.basis → t.type = u.type →
        (t.dict_of_values.map Prod.fst).Nodup →
        t.dict_of_values.Perm u.dict_of_values →
        t.eq (PyVal.tensor u) = Except.ok true) ∧
    (∀ t : Tensor, ∀ k : TKey, dict_find t.dict_of_values k = Option.none →
        t.eq (PyVal.tensor (Tensor.mk t.basis t.covariant_dim t.contravariant_dim
          (t.dict_of_values ++ [(k, 0)]))) = Except.ok true) := by
  refine ⟨?_, ?_, ?_, ?_, ?_⟩
  · intro t u
    rw [eq_ok_true_iff]
    constructor
    · rintro ⟨h1, h2, h3⟩
      exact ⟨h1, h2, (get_all_values_eq_iff h1 h2).mp h3⟩
    · rintro ⟨h1, h2, h3⟩
      exact ⟨h1, h2, (get_all_values_eq_iff h1 h2).mpr h3⟩
  · intro t
    exact eq_ok_true_iff.mpr ⟨rfl, rfl, rfl⟩
  · intro t u h
    obtain ⟨h1, h2, h3⟩ := eq_ok_true_iff.mp h
    exact eq_ok_true_iff.mpr ⟨h1.symm, h2.symm, h3.symm⟩
  · intro t u hb ht hn hperm
    refine eq_ok_true_iff.mpr ⟨hb, ht, get_all_values_congr hb ht ?_⟩
    intro a _ b _
    unfold lookup0
    rw [dict_find_perm hperm hn (a, b)]
  · intro t k hk
    refine eq_ok_true_iff.mpr ⟨rfl, rfl, get_all_values_congr rfl rfl ?_⟩
    intro a _ b _
    unfold lookup0
    show (dict_find t.dict_of_values (a, b)).getD 0 =
      (dict_find (t.dict_of_values ++ [(k, 0)]) (a, b)).getD 0
    unfold dict_find
    rw [List.find?_append]
    rcases hfind : t.dict_of_values.find? (fun e => decide (e.1 = (a, b))) with _ | e
    · rw [hfind]
      by_cases hab : k = (a, b)
      · subst hab
        simp [List.find?]
      · simp [List.find?, hab]
    · rw [hfind]
      rfl

/-- Witness for claim C6: the permutation and explicit-zero conjuncts
applied to the concrete tensors of the equality scenario. -/
theorem tensor_eq_characterization_witness :
    T6a.eq (PyVal.tensor T6b) = Except.ok true :=
  tensor_eq_characterization.2.2.2.1 T6a T6b rfl rfl (by decide) (by decide)

/-- Claim C10: comparing a Tensor against a plain number or string (a
value with no basis, type or densified-values view) raises an attribute
error instead of returning False; False is the guaranteed result only
when the other operand is a Tensor differing in basis, type or densified
values. -/
theorem tensor_eq_non_tensor_raises :
    (∀ t : Tensor, ∀ k : Int,
        t.eq (PyVal.int k) = Except.error PyErr.attributeError) ∧
    (∀ t : Tensor, ∀ s : String,
        t.eq (PyVal.str s) = Except.error PyErr.attributeError) ∧
    (∀ t u : Tensor,
        t.basis ≠ u.basis ∨ t.type ≠ u.type ∨ t.get_all_values ≠ u.get_all_values →
        t.eq (PyVal.tensor u) = Except.ok false) := by
  refine ⟨fun t k => rfl, fun t s => rfl, ?_⟩
  intro t u h
  unfold Tensor.eq
  rcases h with h | h | h
  · simp [h]
  · simp [h]
  · simp [h]

/-- Witness for claim C10: a type mismatch between two concrete tensors
yields False through the theorem. -/
theorem tensor_eq_non_tensor_raises_witness :
    T6a.eq (PyVal.tensor T5) = Except.ok false :=
  tensor_eq_non_tensor_raises.2.2 T6a T5 (Or.inr (Or.inl (by decide)))

/-- Counterexample to claim C4 as stated: on a (1,1) tensor over a
dimension-4 basis, the pair of indices 5 and the multi-index (0,) is
invalid after normalization (5 is out of range), yet item access returns
zero instead of raising a lookup error. -/
theorem getitem_invalid_int_returns_zero :
    T4.getitem (PyIdx.int 5) (PyIdx.mi (some [0])) = Except.ok 0 := by rfl

/-- Claim C4 (amended): item access normalizes integer shorthands to
singleton tuples; with two integers both are validated and an invalid
pair raises a lookup error naming both indices (in particular index 5 on
a dimension-4 basis); a non-integer first index is always validated and
raises a lookup error when invalid; but when exactly one side is an
integer and the other side is a valid multi-index, the integer side is
not validated and the access returns the stored scalar or zero even for
an out-of-range integer; and an integer first index combined with an
invalid non-integer second index raises a type error (from taking the
length of an int), not a lookup error. -/
theorem getitem_characterization (t : Tensor) :
    (∀ ia ib : Int,
        (is_multiindex (some [ia]) t.basis.length t.contravariant_dim &&
          is_multiindex (some [ib]) t.basis.length t.covariant_dim) = true →
        t.getitem (PyIdx.int ia) (PyIdx.int ib) =
          Except.ok (lookup0 t (some [ia], some [ib]))) ∧
    (∀ ia ib : Int,
        (is_multiindex (some [ia]) t.basis.length t.contravariant_dim &&
          is_multiindex (some [ib]) t.basis.length t.covariant_dim) = false →
        t.getitem (PyIdx.int ia) (PyIdx.int ib) =
          Except.error (PyErr.keyErrorPair (PyIdx.int ia) (PyIdx.int ib))) ∧
    (∀ ia : Int, ∀ mb : MIdx,
        is_multiindex mb t.basis.length t.covariant_dim = true →
        t.getitem (PyIdx.int ia) (PyIdx.mi mb) =
          Except.ok (lookup0 t (some [ia], mb))) ∧
    (∀ ia : Int, ∀ mb : MIdx,
        is_multiindex mb t.basis.length t.covariant_dim = false →
        t.getitem (PyIdx.int ia) (PyIdx.mi mb) =
          Except.error PyErr.typeErrorLenOfInt) ∧
    (∀ ma : MIdx, ∀ ib : Int,
        is_multiindex ma t.basis.length t.contravariant_dim = true →
        t.getitem (PyIdx.mi ma) (PyIdx.int ib) =
          Except.ok (lookup0 t (ma, some [ib]))) ∧
    (∀ ma mb : MIdx,
        is_multiindex ma t.basis.length t.contravariant_dim = true →
        is_multiindex mb t.basis.length t.covariant_dim = true →
        t.getitem (PyIdx.mi ma) (PyIdx.mi mb) =
          Except.ok (lookup0 t (ma, mb))) ∧
    (∀ ma mb : MIdx,
        is_multiindex ma t.basis.length t.contravariant_dim = true →
        is_multiindex mb t.basis.length t.covariant_dim = false →
        t.getitem (PyIdx.mi ma) (PyIdx.mi mb) =
          Except.error (PyErr.keyErrorPair (PyIdx.mi ma) (PyIdx.mi mb))) ∧
    (∀ ma : MIdx, ∀ b : PyIdx,
        is_multiindex ma t.basis.length t.contravariant_dim = false →
        t.getitem (PyIdx.mi ma) b =
          Except.error (PyErr.keyErrorPair (PyIdx.mi ma) b)) := by
  refine ⟨?_, ?_, ?_, ?_, ?_, ?_, ?_, ?_⟩
  · intro ia ib h
    simp only [Bool.and_eq_true] at h
    simp [Tensor.getitem, lookup0, h.1, h.2]
  · intro ia ib h
    simp [Tensor.getitem, h]
  · intro ia mb h
    simp [Tensor.getitem, lookup0, h]
  · intro ia mb h
    simp [Tensor.getitem, h]
  · intro ma ib h
    simp [Tensor.getitem, lookup0, h]
  · intro ma mb h1 h2
    simp [Tensor.getitem, lookup0, h1, h2]
  · intro ma mb h1 h2
    simp [Tensor.getitem, h1, h2]
  · intro ma b h
    cases b with
    | int ib => simp [Tensor.getitem, h]
    | mi mb => simp [Tensor.getitem, h]

/-- Witness for claim C4 (amended): the valid integer pair (0, 0) on the
concrete dimension-4 tensor returns zero through the theorem. -/
theorem getitem_characterization_witness :
    T4.getitem (PyIdx.int 0) (PyIdx.int 0) = Except.ok 0 := by
  have h := (getitem_characterization T4).1 0 0 (by decide)
  rw [h]
  decide

/-! ### Properties of dictionary update and addition -/

lemma find?_map_replace_self (d : TDict) (k : TKey) (v : Scalar)
    (h : (d.find? (fun e => decide (e.1 = k))).isSome) :
    (d.map (fun e => if e.1 = k then (k, v) else e)).find?
      (fun e => decide (e.1 = k)) = some (k, v) := by
  induction d with
  | nil => simp at h
  | cons x rest ih =>
    by_cases hx : x.1 = k
    · simp [List.find?, hx]
    · have h' : (rest.find? (fun e => decide (e.1 = k))).isSome := by
        simpa [List.find?, hx] using h
      simpa [List.find?, hx] using ih h'

lemma find?_map_replace_other (d : TDict) (k k' : TKey) (v : Scalar)
    (h : k' ≠ k) :
    (d.map (fun e => if e.1 = k then (k, v) else e)).find?
      (fun e => decide (e.1 = k')) = d.find? (fun e => decide (e.1 = k')) := by
  induction d with
  | nil => rfl
  | cons x rest ih =>
    by_cases hx : x.1 = k
    · have hxk : ¬ x.1 = k' := by
        rw [hx]
        exact fun hh => h hh.symm
      simp [List.find?, hx, Ne.symm h, hxk, ih]
    · by_cases hx' : x.1 = k'
      · simp [List.find?, hx, hx', h]
      · simp [List.find?, hx, hx', ih]

lemma dict_find_dict_set (d : TDict) (k k' : TKey) (v : Scalar) :
    dict_find (dict_set d k v) k' = if k' = k then some v else dict_find d k' := by
  unfold dict_set
  by_cases hsome : (d.find? (fun e => decide (e.1 = k))).isSome
  · rw [if_pos hsome]
    by_cases hk : k' = k
    · subst hk
      unfold dict_find
      rw [find?_map_replace_self d k' v hsome]
      simp
    · unfold dict_find
      rw [find?_map_replace_other d k k' v hk, if_neg hk]
  · rw [if_neg hsome]
    unfold dict_find
    rw [List.find?_append]
    rcases hfind : d.find? (fun e => decide (e.1 = k')) with _ | e
    · rw [hfind]
      by_cases hk : k' = k
      · subst hk
        simp [List.find?]
      · have hk2 : ¬ k = k' := fun hh => hk hh.symm
        simp [List.find?, hk, hk2]
    · rw [hfind]
      have hk : ¬ k' = k := by
        intro hh
        subst hh
        exact hsome (by rw [hfind]; rfl)
      rw [if_neg hk]
      rfl

lemma dict_find_cons (x : TKey × Scalar) (rest : TDict) (k : TKey) :
    dict_find (x :: rest) k = if x.1 = k then some x.2 else dict_find rest k := by
  unfold dict_find
  by_cases hx : x.1 = k
  · simp [List.find?, hx]
  · simp [List.find?, hx]

lemma dict_find_addDicts (d1 d2 : TDict)
    (hn : (d2.map Prod.fst).Nodup) (k : TKey) :
    dict_find (addDicts d1 d2) k =
      combineOpt (dict_find d1 k) (dict_find d2 k) := by
  induction d2 generalizing d1 with
  | nil =>
    show dict_find d1 k = combineOpt (dict_find d1 k) Option.none
    cases dict_find d1 k <;> rfl
  | cons kv rest ih =>
    rw [List.map_cons, List.nodup_cons] at hn
    have hstep : addDicts d1 (kv :: rest) =
        addDicts (match dict_find d1 kv.1 with
          | some v => dict_set d1 kv.1 (v + kv.2)
          | Option.none => dict_set d1 kv.1 kv.2) rest := rfl
    rw [hstep, ih _ hn.2, dict_find_cons]
    by_cases hk : k = kv.1
    · subst hk
      have hrest : dict_find rest kv.1 = Option.none :=
        dict_find_eq_none_iff.mpr
          (fun e he hek => hn.1 (hek ▸ List.mem_map_of_mem Prod.fst he))
      rw [hrest, if_pos rfl]
      cases hd1 : dict_find d1 kv.1 with
      | none =>
        show combineOpt (dict_find (dict_set d1 kv.1 kv.2) kv.1) Option.none = some kv.2
        rw [dict_find_dict_set, if_pos rfl]
        rfl
      | some v =>
        show combineOpt (dict_find (dict_set d1 kv.1 (v + kv.2)) kv.1) Option.none =
          some (v + kv.2)
        rw [dict_find_dict_set, if_pos rfl]
        rfl
    · rw [if_neg (fun hh => hk hh.symm)]
      cases hd1 : dict_find d1 kv.1 with
      | none =>
        show combineOpt (dict_find (dict_set d1 kv.1 kv.2) k) (dict_find rest k) =
          combineOpt (dict_find d1 k) (dict_find rest k)
        rw [dict_find_dict_set, if_neg hk]
      | some v =>
        show combineOpt (dict_find (dict_set d1 kv.1 (v + kv.2)) k) (dict_find rest k) =
          combineOpt (dict_find d1 k) (dict_find rest k)
        rw [dict_find_dict_set, if_neg hk]

lemma checkKeys_ok_iff (n c1 c2 : ℕ) (d : TDict) :
    checkKeys n c1 c2 d = Except.ok () ↔
      ∀ e ∈ d, is_multiindex e.1.1 n c1 = true ∧ is_multiindex e.1.2 n c2 = true := by
  induction d with
  | nil => simp [checkKeys]
  | cons x rest ih =>
    rw [checkKeys]
    by_cases h1 : is_multiindex x.1.1 n c1 = true
    · by_cases h2 : is_multiindex x.1.2 n c2 = true
      · rw [if_neg (by simp [h1]), if_neg (by simp [h2]), ih]
        constructor
        · intro h e he
          rcases List.mem_cons.mp he with rfl | he'
          · exact ⟨h1, h2⟩
          · exact h e he'
        · intro h e he
          exact h e (List.mem_cons_of_mem x he)
      · rw [if_neg (by simp [h1]), if_pos (by simpa using h2)]
        constructor
        · intro h
          exact Except.noConfusion h
        · intro h
          exact absurd (h x (List.mem_cons_self x rest)).2 h2
    · rw [if_pos (by simpa using h1)]
      constructor
      · intro h
        exact Except.noConfusion h
      · intro h
        exact absurd (h x (List.mem_cons_self x rest)).1 h1

lemma mem_dict_set {d : TDict} {k : TKey} {v : Scalar} :
    ∀ e ∈ dict_set d k v, e ∈ d ∨ e.1 = k := by
  unfold dict_set
  split
  · intro e he
    rcases List.mem_map.mp he with ⟨x, hx, rfl⟩
    by_cases hxk : x.1 = k
    · rw [if_pos hxk]
      exact Or.inr rfl
    · rw [if_neg hxk]
      exact Or.inl hx
  · intro e he
    rcases List.mem_append.mp he with he' | he'
    · exact Or.inl he'
    · rcases List.mem_singleton.mp he' with rfl
      exact Or.inr rfl

lemma mem_addDicts {d1 d2 : TDict} :
    ∀ e ∈ addDicts d1 d2, e ∈ d1 ∨ e.1 ∈ d2.map Prod.fst := by
  induction d2 generalizing d1 with
  | nil => exact fun e he => Or.inl he
  | cons kv rest ih =>
    intro e he
    have hstep : addDicts d1 (kv :: rest) =
        addDicts (match dict_find d1 kv.1 with
          | some v => dict_set d1 kv.1 (v + kv.2)
          | Option.none => dict_set d1 kv.1 kv.2) rest := rfl
    rw [hstep] at he
    rcases ih _ he with hmem | hkey
    · have : e ∈ d1 ∨ e.1 = kv.1 := by
        cases hd1 : dict_find d1 kv.1 with
        | none =>
          rw [hd1] at hmem
          exact mem_dict_set e hmem
        | some v =>
          rw [hd1] at hmem
          exact mem_dict_set e hmem
      rcases this with h | h
      · exact Or.inl h
      · refine Or.inr ?_
        rw [List.map_cons, h]
        exact List.mem_cons_self kv.1 (rest.map Prod.fst)
    · refine Or.inr ?_
      rw [List.map_cons]
      exact List.mem_cons_of_mem _ hkey

/-- Claim C7: addition requires an identical basis and an identical type
pair and raises a mismatch error otherwise; on success the result maps
every key present in either operand to the ring sum of the stored values
(or the single present value), keys present in neither stay absent, and
the result keeps the basis and type of the operands. Both operands are
values of the embedding, so neither is mutated. -/
theorem add_characterization :
    (∀ t u : Tensor, u.basis ≠ t.basis ∨ u.type ≠ t.type →
        t.add (PyVal.tensor u) = Except.error PyErr.valueErrorAddMismatch) ∧
    (∀ t u : Tensor, u.basis = t.basis → u.type = t.type →
        validKeys t = true → validKeys u = true →
        (u.dict_of_values.map Prod.fst).Nodup →
        ∃ r : Tensor, t.add (PyVal.tensor u) = Except.ok r ∧
          r.basis = t.basis ∧ r.type = t.type ∧
          ∀ k : TKey, dict_find r.dict_of_values k =
            combineOpt (dict_find t.dict_of_values k)
              (dict_find u.dict_of_values k)) := by
  constructor
  · intro t u h
    have hred : t.add (PyVal.tensor u) =
        if u.basis ≠ t.basis ∨ u.type ≠ t.type then
          Except.error PyErr.valueErrorAddMismatch
        else Tensor.make t.basis t.type
          (addDicts t.dict_of_values u.dict_of_values) := rfl
    rw [hred, if_pos h]
  · intro t u hb ht hvt hvu hn
    obtain ⟨hc, hct⟩ := type_eq_components ht
    have hred : t.add (PyVal.tensor u) =
        if u.basis ≠ t.basis ∨ u.type ≠ t.type then
          Except.error PyErr.valueErrorAddMismatch
        else Tensor.make t.basis t.type
          (addDicts t.dict_of_values u.dict_of_values) := rfl
    have hok : checkKeys t.basis.length t.type.2 t.type.1
        (addDicts t.dict_of_values u.dict_of_values) = Except.ok () := by
      refine (checkKeys_ok_iff _ _ _ _).mpr ?_
      intro e he
      unfold validKeys at hvt hvu
      rw [List.all_eq_true] at hvt hvu
      rcases mem_addDicts e he with hmem | hkey
      · have := hvt e hmem
        simp only [Bool.and_eq_true] at this
        exact ⟨this.1, this.2⟩
      · rcases List.mem_map.mp hkey with ⟨x, hx, hxk⟩
        have := hvu x hx
        simp only [Bool.and_eq_true] at this
        rw [← hxk]
        refine ⟨?_, ?_⟩
        · rw [hb] at this
          rw [show (t.type.2 : ℕ) = t.contravariant_dim from rfl, ← hct]
          exact this.1
        · rw [hb] at this
          rw [show (t.type.1 : ℕ) = t.covariant_dim from rfl, ← hc]
          exact this.2
    have hmake : Tensor.make t.basis t.type
        (addDicts t.dict_of_values u.dict_of_values) =
        Except.ok ⟨t.basis, t.type.1, t.type.2,
          addDicts t.dict_of_values u.dict_of_values⟩ := by
      show (match checkKeys t.basis.length t.type.2 t.type.1
            (addDicts t.dict_of_values u.dict_of_values) with
          | Except.error e => Except.error e
          | Except.ok _ => Except.ok (⟨t.basis, t.type.1, t.type.2,
              addDicts t.dict_of_values u.dict_of_values⟩ : Tensor)) =
          Except.ok ⟨t.basis, t.type.1, t.type.2,
            addDicts t.dict_of_values u.dict_of_values⟩
      rw [hok]
    rw [hred, if_neg (not_or.mpr ⟨fun hA => hA hb, fun hB => hB ht⟩), hmake]
    refine ⟨⟨t.basis, t.type.1, t.type.2,
      addDicts t.dict_of_values u.dict_of_values⟩, rfl, rfl, rfl, ?_⟩
    intro k
    exact dict_find_addDicts t.dict_of_values u.dict_of_values hn k

/-- Witness for claim C7: adding tensors with different stored types
raises the mismatch error through the theorem. -/
theorem add_characterization_witness :
    T6a.add (PyVal.tensor T5) = Except.error PyErr.valueErrorAddMismatch :=
  add_characterization.1 T6a T5 (Or.inr (by decide))

/-- Claim C1: on the concrete scenario of the specification (basis of
dimension 2, type passed as (1,1), sparse map with ((0,),(0,)) = 3 and
((1,),(1,)) = 5), contract_indices(T, 0, 0) does not produce the (0,0)
tensor with value 8; the reduced rank is 0, the generator yields the
marker None, and slicing None raises a TypeError, so the call crashes. -/
theorem contract_identity_crashes :
    contract_indices T1 0 0 = Except.error PyErr.typeErrorNoneSlice := by
  decide

/-- Claim C2: the constructor checks the first half of each key against
_type[1] rather than the declared contravariant rank _type[0]; the key
((0,), None), valid for the declared type (1, 0) over a dimension-3
basis, is rejected with a validation error naming expected dimension 0. -/
theorem make_valid_key_rejected :
    Tensor.make [0, 1, 2] (1, 0) [((some [0], Option.none), 1)] =
      Except.error (PyErr.valueErrorMI (some [0]) 0) := by
  decide

/-- Claim C3: the matrix adapter stores its keys as ((i, j), None), with
the empty marker in the second position, so integer item access
Get(0, 0) on the resulting tensor raises a KeyError instead of returning
the matrix entry. -/
theorem from_matrix_get_raises :
    (tensor_from_matrix [[7]] [0]).bind
        (fun t => t.getitem (PyIdx.int 0) (PyIdx.int 0)) =
      Except.error (PyErr.keyErrorPair (PyIdx.int 0) (PyIdx.int 0)) := by
  decide

/-- Claim C5: on the tensor constructed as Tensor(basis, (2, 1), {}) over
a dimension-2 basis, the slot 1 is within the declared contravariant rank
2, yet contract_indices(T, 1, 0) raises the contravariant-slot range
error because the code compares the slot against the stored
contravariant_dim, which __init__ read from _type[1]. -/
theorem contract_slot_check_raises :
    contract_indices T5 1 0 =
      Except.error (PyErr.valueErrorContravariantSlot 1 0) := by
  decide
